import Mathlib

/-!
Verification development for the number-image extraction pipeline of
`the-numbers-nanogenmo-2025` (`extract_all_numbers.py`, with the artifact
consumer `build_book.py`).

The Python source is shallowly embedded: strings are Lean `String`
(lists of characters, ASCII model of `str.isdigit`/`str.lower`/`str.strip`),
the `re.search` calls are embedded as leftmost-match scanners specialised to
the literal patterns of the source, OCR documents are the page/word trees the
scanner traverses, and the filesystem effects of the region extractor are an
explicit store of artifact paths.  The third-party `word2number` conversion is
kept as an explicit oracle parameter `w2n`; a concrete instance modelled from
the spec is provided for evaluating specific tokens.
-/

namespace TheNumbers

/-! ## Python string primitives (ASCII model) -/

/-- Characters stripped by Python `str.strip()` (ASCII whitespace model). -/
def pySpace (c : Char) : Bool :=
  c = ' ' || c = '\t' || c = '\n' || c = '\r' || c = '\x0b' || c = '\x0c'

/-- Python `str.strip()`: drop whitespace from both ends. -/
def pyStrip (s : String) : String :=
  String.mk (((s.toList.dropWhile pySpace).reverse.dropWhile pySpace).reverse)

/-- Python `str.lower()` (ASCII model, matching `Char.toLower`). -/
def pyLower (s : String) : String :=
  String.mk (s.toList.map Char.toLower)

/-- A decimal-digit character (ASCII model of `str.isdigit` / `\d`). -/
def pyIsDigit (c : Char) : Bool :=
  48 ≤ c.toNat && c.toNat ≤ 57

/-- Python `str.isdigit()`: non-empty and all digits. -/
def pyIsDigitStr (s : String) : Bool :=
  !s.toList.isEmpty && s.toList.all pyIsDigit

/-- Decimal value of a digit list, accumulator style (model of `int(text)`). -/
def natOfDigitsAux (acc : Nat) : List Char → Nat
  | [] => acc
  | c :: cs => natOfDigitsAux (acc * 10 + (c.toNat - 48)) cs

/-- Decimal value of a digit list. -/
def natOfDigits (cs : List Char) : Nat :=
  natOfDigitsAux 0 cs

/-- The leading-zero test of the source: `text.startswith('0') and len(text) > 1`. -/
def leadingZeroLong (s : String) : Bool :=
  match s.toList with
  | c :: _ :: _ => c = '0'
  | _ => false

/-- One step of Python `str.replace` with a non-empty pattern, fuelled so the
recursion is structural; `fuel ≥ cs.length` makes the fuel irrelevant. -/
def replGo (pat rep : List Char) : Nat → List Char → List Char
  | 0, cs => cs
  | _ + 1, [] => []
  | fuel + 1, c :: cs =>
    if pat.isPrefixOf (c :: cs) then rep ++ replGo pat rep fuel ((c :: cs).drop pat.length)
    else c :: replGo pat rep fuel cs

/-- Python `str.replace(pat, rep)`: replace every non-overlapping occurrence,
left to right.  The empty pattern inserts `rep` around every character. -/
def pyReplace (s pat rep : String) : String :=
  if pat.toList.isEmpty then
    String.mk (rep.toList ++ s.toList.flatMap (fun c => c :: rep.toList))
  else
    String.mk (replGo pat.toList rep.toList (s.toList.length + 1) s.toList)

/-- Does `pat` occur as a contiguous substring of `s`? -/
def hasSub (pat : List Char) : List Char → Bool
  | [] => pat.isPrefixOf ([] : List Char)
  | c :: cs => pat.isPrefixOf (c :: cs) || hasSub pat cs

/-- Split a character list at a separator, dropping empty segments. -/
def splitSepAux (sep : Char) (cur : List Char) : List Char → List (List Char)
  | [] => if cur.isEmpty then [] else [cur.reverse]
  | c :: cs =>
    if c = sep then
      if cur.isEmpty then splitSepAux sep [] cs
      else cur.reverse :: splitSepAux sep [] cs
    else splitSepAux sep (c :: cur) cs

/-- Model of `pathlib.Path(p).name`: the last path component, with empty and
`.` components dropped. -/
def pathName (p : String) : String :=
  match ((splitSepAux '/' [] p.toList).filter (fun seg => !(seg == ['.']))).reverse with
  | [] => ""
  | seg :: _ => String.mk seg

/-- Left-biased choice on `Option`, the backbone of leftmost `re.search`. -/
def firstSome {α : Type} (a b : Option α) : Option α :=
  match a with
  | some x => some x
  | none => b

/-! ## The `re.search` models for the four title-attribute patterns -/

/-- Strip an expected literal prefix, or fail. -/
def dropLit : List Char → List Char → Option (List Char)
  | [], cs => some cs
  | _ :: _, [] => none
  | l :: ls, c :: cs => if c = l then dropLit ls cs else none

/-- Maximal digit prefix and the remainder (greedy `\d+`/`\d*`). -/
def digitSpan : List Char → List Char × List Char
  | [] => ([], [])
  | c :: cs =>
    if pyIsDigit c then
      let p := digitSpan cs
      (c :: p.1, p.2)
    else ([], c :: cs)

/-- Match `bbox (\d+) (\d+) (\d+) (\d+)` at the start of the list. -/
def matchBBox (cs : List Char) : Option (Nat × Nat × Nat × Nat) :=
  match dropLit ("bbox ").toList cs with
  | none => none
  | some r0 =>
    let p1 := digitSpan r0
    if p1.1.isEmpty then none else
    match p1.2 with
    | ' ' :: r1 =>
      let p2 := digitSpan r1
      if p2.1.isEmpty then none else
      match p2.2 with
      | ' ' :: r2 =>
        let p3 := digitSpan r2
        if p3.1.isEmpty then none else
        match p3.2 with
        | ' ' :: r3 =>
          let p4 := digitSpan r3
          if p4.1.isEmpty then none
          else some (natOfDigits p1.1, natOfDigits p2.1, natOfDigits p3.1, natOfDigits p4.1)
        | _ => none
      | _ => none
    | _ => none

/-- Leftmost match of the `bbox` pattern (`re.search`). -/
def searchBBox : List Char → Option (Nat × Nat × Nat × Nat)
  | [] => none
  | c :: cs => firstSome (matchBBox (c :: cs)) (searchBBox cs)

/-- `parse_bbox` of the source: bounding box from an hOCR title attribute. -/
def parse_bbox (title : String) : Option (Nat × Nat × Nat × Nat) :=
  searchBBox title.toList

/-- Match `x_wconf (\d+(?:\.\d+)?)` at the start of the list; the decimal text
is read as an exact rational (model of Python `float(...)`). -/
def matchConf (cs : List Char) : Option ℚ :=
  match dropLit ("x_wconf ").toList cs with
  | none => none
  | some r0 =>
    let p := digitSpan r0
    if p.1.isEmpty then none else
    match p.2 with
    | '.' :: r1 =>
      let f := digitSpan r1
      if f.1.isEmpty then some ((natOfDigits p.1 : ℚ))
      else some ((natOfDigits p.1 : ℚ) + (natOfDigits f.1 : ℚ) / (10 : ℚ) ^ f.1.length)
    | _ => some ((natOfDigits p.1 : ℚ))

/-- Leftmost match of the `x_wconf` pattern (`re.search`). -/
def searchConf : List Char → Option ℚ
  | [] => none
  | c :: cs => firstSome (matchConf (c :: cs)) (searchConf cs)

/-- `parse_confidence` of the source: OCR confidence from a title attribute. -/
def parse_confidence (title : String) : Option ℚ :=
  searchConf title.toList

/-- Maximal prefix of non-quote characters and the remainder (`[^"]+`). -/
def nonQuoteSpan : List Char → List Char × List Char
  | [] => ([], [])
  | c :: cs =>
    if c = '"' then ([], c :: cs)
    else
      let p := nonQuoteSpan cs
      (c :: p.1, p.2)

/-- Match `image "([^"]+)"` at the start of the list. -/
def matchImage (cs : List Char) : Option String :=
  match dropLit ("image \"").toList cs with
  | none => none
  | some r0 =>
    let p := nonQuoteSpan r0
    if p.1.isEmpty then none else
    match p.2 with
    | '"' :: _ => some (String.mk p.1)
    | _ => none

/-- Leftmost match of the `image "..."` pattern (`re.search`). -/
def searchImage : List Char → Option String
  | [] => none
  | c :: cs => firstSome (matchImage (c :: cs)) (searchImage cs)

/-- `parse_image_path` of the source: quoted image reference, reduced to its
filename component. -/
def parse_image_path (title : String) : Option String :=
  (searchImage title.toList).map pathName

/-- Match `_h(\d+)\.png` ending exactly at the end of the list (the `$`). -/
def matchHeight (cs : List Char) : Option Nat :=
  match dropLit ("_h").toList cs with
  | none => none
  | some r0 =>
    let p := digitSpan r0
    if p.1.isEmpty then none else
    match dropLit (".png").toList p.2 with
    | some [] => some (natOfDigits p.1)
    | _ => none

/-- Leftmost match of the consumer's `_h(\d+)\.png$` pattern (`re.search` in
`build_book.get_image_for_number`). -/
def searchHeight : List Char → Option Nat
  | [] => none
  | c :: cs => firstSome (matchHeight (c :: cs)) (searchHeight cs)

/-- Height encoded in an artifact filename, as required by the consumer
`build_book.get_image_for_number` (pattern `_h(\d+)\.png$`). -/
def heightFromName (name : String) : Option Nat :=
  searchHeight name.toList

/-! ## The numeric-text normalizer (`extract_number_from_text`) -/

/-- Result of the third-party `word2number.w2n.word_to_num`: a Python int or a
Python float (only `isinstance(num, int)` results are ever accepted). -/
inductive W2NResult : Type where
  | intVal : Int → W2NResult
  | floatVal : W2NResult
deriving DecidableEq

/-- A `word_to_num` oracle: `none` models a raised `ValueError`/`IndexError`. -/
def W2NOracle : Type := String → Option W2NResult

/-- The word-conversion tail of `extract_number_from_text`: accept only ints
in `[1, 50_000]`, treat an exception as no match. -/
def w2nAttempt (w2n : W2NOracle) (text : String) : Option Int :=
  match w2n text with
  | some (W2NResult.intVal n) => if 1 ≤ n ∧ n ≤ 50000 then some n else none
  | _ => none

/-- Body of `extract_number_from_text` after the initial
`text.strip().lower()` (source lines 14-37); `Int.ofNat (natOfDigits ...)`
is the value of `num = int(text)`. -/
def extractCore (w2n : W2NOracle) (text : String) : Option Int :=
  if text = "zero" then some 0
  else if pyIsDigitStr text then
    if leadingZeroLong text then none
    else if 0 ≤ Int.ofNat (natOfDigits text.toList) ∧ Int.ofNat (natOfDigits text.toList) ≤ 50000
    then some (Int.ofNat (natOfDigits text.toList))
    else w2nAttempt w2n text
  else w2nAttempt w2n text

/-- `extract_number_from_text` of the source, parameterised by the
`word_to_num` oracle. -/
def extract_number_from_text (w2n : W2NOracle) (text : String) : Option Int :=
  extractCore w2n (pyLower (pyStrip text))

/-- Number-word table for the spec-modelled conversion. -/
def smallNumberWords : List (String × Nat) :=
  [("zero", 0), ("one", 1), ("two", 2), ("three", 3), ("four", 4), ("five", 5),
   ("six", 6), ("seven", 7), ("eight", 8), ("nine", 9), ("ten", 10),
   ("eleven", 11), ("twelve", 12), ("thirteen", 13), ("fourteen", 14),
   ("fifteen", 15), ("sixteen", 16), ("seventeen", 17), ("eighteen", 18),
   ("nineteen", 19), ("twenty", 20), ("thirty", 30), ("forty", 40),
   ("fifty", 50), ("sixty", 60), ("seventy", 70), ("eighty", 80),
   ("ninety", 90)]

/-- Combine recognised number words left to right; any unknown word fails. -/
def w2nCombine : List String → Nat → Nat → Option Nat
  | [], total, current => some (total + current)
  | w :: ws, total, current =>
    if w = "hundred" then w2nCombine ws total (max current 1 * 100)
    else if w = "thousand" then w2nCombine ws (total + max current 1 * 1000) 0
    else if w = "million" then w2nCombine ws (total + max current 1 * 1000000) 0
    else
      match List.lookup w smallNumberWords with
      | some k => w2nCombine ws total (current + k)
      | none => none

/-- Modelled from the spec: the third-party `word2number.w2n.word_to_num`
conversion is not part of this repository's sources, so it is modelled from
spec §4.1 rule 4 as "a natural-language number-word-to-integer conversion
(handling compound forms such as twenty-three)": hyphens become spaces, the
phrase is split into words, and every word must be a number word. -/
def word_to_num_model (s : String) : Option W2NResult :=
  let cleaned := (pyLower s).toList.map (fun c => if c = '-' then ' ' else c)
  match splitSepAux ' ' [] cleaned with
  | [] => none
  | w :: ws =>
    (w2nCombine ((w :: ws).map String.mk) 0 0).map (fun n => W2NResult.intVal (Int.ofNat n))

/-! ## The document scanner (`extract_numbers_from_hocr`) -/

/-- An hOCR word element (`span.ocrx_word`): its text content and its
`title` attribute (absent attribute modelled as `none`). -/
structure Word : Type where
  text : String
  title : Option String
deriving DecidableEq

/-- An hOCR page element (`div.ocr_page`): its `title` attribute and its word
elements in document order. -/
structure Page : Type where
  title : Option String
  words : List Word
deriving DecidableEq

/-- A candidate as stored by the scanner: `(number, x0, y0, x1, y1)`. -/
abbrev Cand : Type := Int × Nat × Nat × Nat × Nat

instance : DecidableEq Cand :=
  inferInstance

instance : DecidableEq (String × List Cand) :=
  inferInstance

instance : DecidableEq (List (String × List Cand)) :=
  inferInstance

/-- Python truthiness of an optional string: `None` and `""` are falsy. -/
def getTruthy : Option String → Option String
  | none => none
  | some s => if s = "" then none else some s

/-- Raster filename of a page: truthy `title` attribute fed to
`parse_image_path`. -/
def getImage (p : Page) : Option String :=
  match getTruthy p.title with
  | none => none
  | some t => parse_image_path t

/-- Mutable state of `extract_numbers_from_hocr`: the insertion-ordered dict
`numbers_by_image` and the book-scoped `seen_numbers` set. -/
structure ScanState : Type where
  numbersByImage : List (String × List Cand)
  seenNumbers : List Int

/-- `numbers_by_image[image_name].append(c)`, adding the key at the end if it
is new (Python dicts preserve insertion order). -/
def dictAppend : List (String × List Cand) → String → Cand → List (String × List Cand)
  | [], k, c => [(k, [c])]
  | e :: rest, k, c =>
    if e.1 = k then (e.1, e.2 ++ [c]) :: rest
    else e :: dictAppend rest k c

/-- Body of the word loop of `extract_numbers_from_hocr` (source lines 90-115):
text truthiness, normalization, the seen-set check, title truthiness, the
confidence gate, and geometry, in source order. -/
def processWord (w2n : W2NOracle) (img : String) (s : ScanState) (w : Word) : ScanState :=
  if w.text = "" then s
  else
    match extract_number_from_text w2n w.text with
    | none => s
    | some number =>
      if number ∈ s.seenNumbers then s
      else
        match getTruthy w.title with
        | none => s
        | some wt =>
          match parse_confidence wt with
          | none => s
          | some confidence =>
            if confidence ≤ 90 then s
            else
              match parse_bbox wt with
              | none => s
              | some b =>
                { numbersByImage := dictAppend s.numbersByImage img (number, b),
                  seenNumbers := s.seenNumbers ++ [number] }

/-- The word loop over one page. -/
def scanWords (w2n : W2NOracle) (img : String) (s : ScanState) : List Word → ScanState
  | [] => s
  | w :: ws => scanWords w2n img (processWord w2n img s w) ws

/-- Body of the page loop (source lines 83-115): skip pages whose raster
filename is unresolvable, otherwise run the word loop. -/
def processPage (w2n : W2NOracle) (s : ScanState) (p : Page) : ScanState :=
  match getImage p with
  | none => s
  | some img => scanWords w2n img s p.words

/-- The page loop. -/
def scanPages (w2n : W2NOracle) (s : ScanState) : List Page → ScanState
  | [] => s
  | p :: ps => scanPages w2n (processPage w2n s p) ps

/-- `extract_numbers_from_hocr` of the source: the document is the parsed
tree, a list of pages each holding its word elements in document order. -/
def extract_numbers_from_hocr (w2n : W2NOracle) (doc : List Page) : List (String × List Cand) :=
  (scanPages w2n { numbersByImage := [], seenNumbers := [] } doc).numbersByImage

/-- All candidate values of a scanner result, in stored order. -/
def valuesOf : List (String × List Cand) → List Int
  | [] => []
  | e :: rest => e.2.map (fun c => c.1) ++ valuesOf rest

/-- First candidate with a given value in a candidate list. -/
def findVal (v : Int) : List Cand → Option (Nat × Nat × Nat × Nat)
  | [] => none
  | c :: cs => if c.1 = v then some c.2 else findVal v cs

/-- First candidate with a given value in a scanner result, together with the
raster filename it is filed under. -/
def lookupCand (v : Int) : List (String × List Cand) → Option (String × (Nat × Nat × Nat × Nat))
  | [] => none
  | e :: rest => firstSome ((findVal v e.2).map (fun b => (e.1, b))) (lookupCand v rest)

/-- Does this word token qualify on its own (ignoring the seen-set): truthy
text that normalizes, truthy title, confidence parsed and `> 90`, and a
parsed bounding box?  Returns the value and box when it does. -/
def wordQual (w2n : W2NOracle) (w : Word) : Option (Int × (Nat × Nat × Nat × Nat)) :=
  if w.text = "" then none
  else
    match extract_number_from_text w2n w.text with
    | none => none
    | some number =>
      match getTruthy w.title with
      | none => none
      | some wt =>
        match parse_confidence wt with
        | none => none
        | some confidence =>
          if confidence ≤ 90 then none
          else
            match parse_bbox wt with
            | none => none
            | some b => some (number, b)

/-- Bounding box of the first qualifying occurrence of value `v` in a word
list, in document order. -/
def firstQualWords (w2n : W2NOracle) (v : Int) : List Word → Option (Nat × Nat × Nat × Nat)
  | [] => none
  | w :: ws =>
    match wordQual w2n w with
    | some q => if q.1 = v then some q.2 else firstQualWords w2n v ws
    | none => firstQualWords w2n v ws

/-- Raster filename and bounding box of the first qualifying occurrence of
value `v` in the whole document, in traversal order. -/
def firstQualPages (w2n : W2NOracle) (v : Int) : List Page → Option (String × (Nat × Nat × Nat × Nat))
  | [] => none
  | p :: ps =>
    match getImage p with
    | none => firstQualPages w2n v ps
    | some img =>
      firstSome ((firstQualWords w2n v p.words).map (fun b => (img, b)))
        (firstQualPages w2n v ps)

/-! ## The region extractor (`extract_and_save_numbers`) -/

/-- Console messages of the extractor and the per-book driver. -/
inductive Msg : Type where
  | processing : String → Msg
  | jp2NotFound : String → Msg
  | completed : String → Nat → Nat → Msg
  | noHocr : String → Msg
  | noJp2 : String → Msg
deriving DecidableEq

/-- The artifact store: artifact path ↦ (raster filename, crop box).  The
content of an artifact is determined by the raster and the box cropped. -/
abbrev Store : Type := List (String × String × Nat × Nat × Nat × Nat)

/-- The paths present in the store. -/
def storeKeys (st : Store) : List String :=
  st.map (fun e => e.1)

/-- State threaded through the extractor loops: the store plus the `count`
and `skipped` accumulators and the console log. -/
structure SaveSt : Type where
  store : Store
  count : Nat
  skipped : Nat
  log : List Msg

/-- The deterministic artifact path of source lines 152-153:
`output_dir / str(number) / f"{number}_{book_name}_{image_name.replace('.jp2', '.png')}"`. -/
def artifactPath (outputDir : String) (number : Int) (bookName imageName : String) : String :=
  outputDir ++ "/" ++ toString number ++ "/" ++ toString number ++ "_" ++ bookName ++ "_"
    ++ pyReplace imageName (".jp2") (".png")

/-- The filename component of the artifact path (its last path segment). -/
def artifactFilename (number : Int) (bookName imageName : String) : String :=
  toString number ++ "_" ++ bookName ++ "_" ++ pyReplace imageName (".jp2") (".png")

/-- The candidate loop of source lines 150-165: skip when the path already
exists, otherwise crop and save. -/
def saveCands (img outputDir bookName : String) (acc : SaveSt) : List Cand → SaveSt
  | [] => acc
  | c :: cs =>
    if artifactPath outputDir c.1 bookName img ∈ storeKeys acc.store then
      saveCands img outputDir bookName { acc with skipped := acc.skipped + 1 } cs
    else
      saveCands img outputDir bookName
        { acc with
            store := acc.store ++ [(artifactPath outputDir c.1 bookName img, img, c.2)],
            count := acc.count + 1 } cs

/-- The raster loop of source lines 139-165: warn and skip a raster missing
from the JP2 directory, otherwise process its candidates. -/
def saveImages (jp2Files : List String) (outputDir bookName : String) (acc : SaveSt) :
    List (String × List Cand) → SaveSt
  | [] => acc
  | e :: rest =>
    if e.1 ∈ jp2Files then
      saveImages jp2Files outputDir bookName (saveCands e.1 outputDir bookName acc e.2) rest
    else
      saveImages jp2Files outputDir bookName
        { acc with log := acc.log ++ [Msg.jp2NotFound e.1] } rest

/-- `extract_and_save_numbers` of the source: scan the document, then crop
and persist every candidate, starting from filesystem state `store0`.
`jp2Files` is the set of raster filenames present in the JP2 directory. -/
def extract_and_save_numbers (w2n : W2NOracle) (doc : List Page) (jp2Files : List String)
    (outputDir bookName : String) (store0 : Store) : SaveSt :=
  let nbi := extract_numbers_from_hocr w2n doc
  let r := saveImages jp2Files outputDir bookName
    { store := store0, count := 0, skipped := 0, log := [Msg.processing bookName] } nbi
  { r with log := r.log ++ [Msg.completed bookName r.count r.skipped] }

/-! ## The fan-out controller (`process_book` and `main`) -/

/-- A discovered book directory: its name, the `*_hocr.html` glob matches,
the `*_jp2` glob matches, the parse outcome of reading each layout file
(`.error` models an uncaught exception), and the raster filenames inside
each JP2 directory. -/
structure Book : Type where
  name : String
  hocrFiles : List String
  jp2Dirs : List String
  readHocr : String → Except String (List Page)
  jp2Contents : String → List String

/-- `process_book` of the source (lines 171-189): report and return 0 when
the layout file or the raster directory is missing, otherwise run the
extractor on the first glob match of each; an `.error` outcome models an
exception escaping to the dispatch boundary.  The second component is the
console output. -/
def process_book (w2n : W2NOracle) (outputDir : String) (store0 : Store) (b : Book) :
    Except String SaveSt × List Msg :=
  match b.hocrFiles with
  | [] => (Except.ok { store := store0, count := 0, skipped := 0, log := [] }, [Msg.noHocr b.name])
  | h :: _ =>
    match b.jp2Dirs with
    | [] => (Except.ok { store := store0, count := 0, skipped := 0, log := [] }, [Msg.noJp2 b.name])
    | j :: _ =>
      match b.readHocr h with
      | Except.error e => (Except.error e, [])
      | Except.ok doc =>
        let r := extract_and_save_numbers w2n doc (b.jp2Contents j) outputDir b.name store0
        (Except.ok r, r.log)

/-- What one book contributes to `main`'s aggregate: its created count, or 0
when its worker raised (the `except` branch of source lines 206-211). -/
def bookContribution (w2n : W2NOracle) (outputDir : String) (store0 : Store) (b : Book) : Nat :=
  match (process_book w2n outputDir store0 b).1 with
  | Except.ok r => r.count
  | Except.error _ => 0

/-- The grand total reported by `main` (source line 213): the sum of all
per-book results, failures counted as 0. -/
def mainTotal (w2n : W2NOracle) (outputDir : String) (store0 : Store) (books : List Book) : Nat :=
  (books.map (bookContribution w2n outputDir store0)).sum

/-- The created counts of the successfully processed books only. -/
def successCounts (w2n : W2NOracle) (outputDir : String) (store0 : Store) (books : List Book) :
    List Nat :=
  books.filterMap (fun b =>
    match (process_book w2n outputDir store0 b).1 with
    | Except.ok r => some r.count
    | Except.error _ => none)

/-- Does a message report a missing layout file or raster directory? -/
def isMissingMsg : Msg → Bool
  | Msg.noHocr _ => true
  | Msg.noJp2 _ => true
  | _ => false

/-- Total number of candidates whose raster is present in the JP2 directory
(the candidates the extractor actually visits). -/
def countPresent (jp2Files : List String) : List (String × List Cand) → Nat
  | [] => 0
  | e :: rest => (if e.1 ∈ jp2Files then e.2.length else 0) + countPresent jp2Files rest

/-- Page A of the end-to-end example of spec §8: raster `p1.jp2`, word
"twelve" with bbox (10,10,50,30) and confidence 95. -/
def examplePageA : Page :=
  { title := some ("bbox 0 0 2500 3300; ppageno 0; image \"book1/p1.jp2\""),
    words := [{ text := "twelve", title := some ("bbox 10 10 50 30; x_wconf 95") }] }

/-- Page B of the end-to-end example of spec §8: raster `p2.jp2`, the word
"12" again, with higher confidence 99. -/
def examplePageB : Page :=
  { title := some ("image \"book1/p2.jp2\""),
    words := [{ text := "12", title := some ("bbox 1 2 3 4; x_wconf 99") }] }

/-- A page referencing a raster whose extension is not `.jp2`. -/
def examplePageTif : Page :=
  { title := some ("image \"p1.tif\""),
    words := [{ text := "twelve", title := some ("bbox 10 10 50 30; x_wconf 95") }] }

/-! ## Basic lemmas -/

@[simp]
theorem firstSome_none {α : Type} (b : Option α) : firstSome none b = b :=
  rfl

@[simp]
theorem firstSome_some {α : Type} (a : α) (b : Option α) : firstSome (some a) b = some a :=
  rfl

theorem firstSome_none_right {α : Type} (a : Option α) : firstSome a none = a := by
  cases a <;> rfl

theorem firstSome_assoc {α : Type} (a b c : Option α) :
    firstSome (firstSome a b) c = firstSome a (firstSome b c) := by
  cases a <;> rfl

/-! ## Normalizer lemmas -/

theorem w2nAttempt_bounds (w2n : W2NOracle) (t : String) (n : Int)
    (h : w2nAttempt w2n t = some n) : 1 ≤ n ∧ n ≤ 50000 := by
  unfold w2nAttempt at h
  split at h
  · split at h
    next hc => exact Option.some.inj h ▸ hc
    next => cases h
  · cases h

theorem extractCore_bounds (w2n : W2NOracle) (t : String) (n : Int)
    (h : extractCore w2n t = some n) : 0 ≤ n ∧ n ≤ 50000 := by
  unfold extractCore at h
  split at h
  · cases h; exact ⟨le_refl 0, by norm_num⟩
  · split at h
    · split at h
      · cases h
      · split at h
        next hc => cases h; exact hc
        next => have := w2nAttempt_bounds w2n t n h; omega
    · have := w2nAttempt_bounds w2n t n h; omega

theorem natOfDigitsAux_pos (cs : List Char) : ∀ acc : Nat, 0 < acc → 0 < natOfDigitsAux acc cs := by
  induction cs with
  | nil => intro acc h; exact h
  | cons c cs ih =>
    intro acc h
    show 0 < natOfDigitsAux (acc * 10 + (c.toNat - 48)) cs
    exact ih _ (by omega)

theorem char_eq_zero_of_toNat (c : Char) (h : c.toNat = 48) : c = '0' := by
  have h2 := Char.ofNat_toNat c
  rw [h] at h2
  calc c = Char.ofNat 48 := h2.symm
    _ = '0' := by decide

theorem pyIsDigitStr_parts (t : String) (h : pyIsDigitStr t = true) :
    t.toList ≠ [] ∧ ∀ c ∈ t.toList, pyIsDigit c = true := by
  unfold pyIsDigitStr at h
  rw [Bool.and_eq_true] at h
  refine ⟨?_, ?_⟩
  · intro hnil
    rw [hnil] at h
    simp at h
  · intro c hc
    exact List.all_eq_true.mp h.2 c hc

theorem leadingZero_head (t : String) (c c2 : Char) (cs2 : List Char)
    (hl : t.toList = c :: c2 :: cs2) (hlz : ¬ leadingZeroLong t = true) : c ≠ ('0') := by
  intro hc0
  apply hlz
  unfold leadingZeroLong
  rw [hl, hc0]
  simp

theorem natOfDigits_single (c : Char) : natOfDigits [c] = c.toNat - 48 := by
  show natOfDigitsAux (0 * 10 + (c.toNat - 48)) [] = c.toNat - 48
  show 0 * 10 + (c.toNat - 48) = c.toNat - 48
  omega

theorem natOfDigits_cons_pos (c : Char) (cs : List Char) (h : 0 < c.toNat - 48) :
    0 < natOfDigits (c :: cs) := by
  show 0 < natOfDigitsAux (0 * 10 + (c.toNat - 48)) cs
  exact natOfDigitsAux_pos cs _ (by omega)

theorem stringMk_single_zero (t : String) (c : Char) (hl : t.toList = [c]) (hc : c = ('0')) :
    t = "0" := by
  have heta : String.mk t.toList = t := rfl
  rw [← heta, hl, hc]

theorem pyIsDigit_toNat (c : Char) (h : pyIsDigit c = true) : 48 ≤ c.toNat ∧ c.toNat ≤ 57 := by
  unfold pyIsDigit at h
  rw [Bool.and_eq_true] at h
  exact ⟨by simpa using h.1, by simpa using h.2⟩

theorem extractCore_eq_zero_iff (w2n : W2NOracle) (t : String) :
    extractCore w2n t = some 0 ↔ (t = "0" ∨ t = "zero") := by
  constructor
  · intro h
    unfold extractCore at h
    split at h
    next hz => exact Or.inr hz
    next hz =>
      split at h
      next hdig =>
        split at h
        next hlz => cases h
        next hlz =>
          split at h
          next hrange =>
            left
            have hv : natOfDigits t.toList = 0 := Int.ofNat.inj (Option.some.inj h)
            obtain ⟨hne, hall⟩ := pyIsDigitStr_parts t hdig
            cases hl : t.toList with
            | nil => exact absurd hl hne
            | cons c cs =>
              have hcdig : pyIsDigit c = true := hall c (by rw [hl]; exact List.mem_cons_self c cs)
              have hc48 := pyIsDigit_toNat c hcdig
              cases cs with
              | nil =>
                rw [hl, natOfDigits_single] at hv
                exact stringMk_single_zero t c hl (char_eq_zero_of_toNat c (by omega))
              | cons c2 cs2 =>
                exfalso
                have hcne : c ≠ ('0') := leadingZero_head t c c2 cs2 hl hlz
                have hcne48 : c.toNat ≠ 48 := fun hh => hcne (char_eq_zero_of_toNat c hh)
                have hpos : 0 < natOfDigits (c :: c2 :: cs2) :=
                  natOfDigits_cons_pos c (c2 :: cs2) (by omega)
                rw [hl] at hv
                omega
          next hrange =>
            have := w2nAttempt_bounds w2n t 0 h
            omega
      next hdig =>
        have := w2nAttempt_bounds w2n t 0 h
        omega
  · intro h
    cases h with
    | inl h => rw [h]; rfl
    | inr h => rw [h]; rfl

/-! ## Claim C1 -/

/-- C1: for every text token, `extract_number_from_text` returns either an
integer in `[0, 50000]` or no match; the tokens "00", "007", "-5" and
"50001" all yield no match, and "0" and "zero" both yield 0. -/
theorem normalizer_range_and_tokens :
    (∀ (w2n : W2NOracle) (t : String) (n : Int),
        extract_number_from_text w2n t = some n → 0 ≤ n ∧ n ≤ 50000)
    ∧ extract_number_from_text word_to_num_model ("00") = none
    ∧ extract_number_from_text word_to_num_model ("007") = none
    ∧ extract_number_from_text word_to_num_model ("-5") = none
    ∧ extract_number_from_text word_to_num_model ("50001") = none
    ∧ extract_number_from_text word_to_num_model ("0") = some 0
    ∧ extract_number_from_text word_to_num_model ("zero") = some 0 :=
  ⟨fun w2n t n h => extractCore_bounds w2n (pyLower (pyStrip t)) n h,
    by decide, by decide, by decide, by decide, by decide, by decide⟩

theorem normalizer_range_and_tokens_witness : (0 : Int) ≤ 5 ∧ (5 : Int) ≤ 50000 :=
  normalizer_range_and_tokens.1 (fun _ => none) ("5") 5 (by decide)

/-! ## Claim C7 -/

/-- C7: the normalizer returns 0 iff the trimmed, lower-cased token is
exactly "0" or "zero"; every other accepted token yields a positive
integer (the word-conversion path never produces 0). -/
theorem normalizer_zero_only_literal (w2n : W2NOracle) (t : String) :
    (extract_number_from_text w2n t = some 0
      ↔ (pyLower (pyStrip t) = "0" ∨ pyLower (pyStrip t) = "zero"))
    ∧ ∀ n : Int, extract_number_from_text w2n t = some n → n ≠ 0 → 1 ≤ n := by
  constructor
  · exact extractCore_eq_zero_iff w2n (pyLower (pyStrip t))
  · intro n h hn
    have := extractCore_bounds w2n (pyLower (pyStrip t)) n h
    omega

theorem normalizer_zero_only_literal_witness : (1 : Int) ≤ 5 :=
  (normalizer_zero_only_literal (fun _ => none) ("5")).2 5 (by decide) (by decide)

/-! ## Claim C10 -/

/-- C10: `parse_bbox` returns `none` or exactly four natural-number
coordinates; a `bbox` marker followed by a negative or non-numeric
coordinate yields `none`, never a partially parsed box. -/
theorem parse_bbox_shape_and_rejects :
    (∀ s : String, parse_bbox s = none ∨ ∃ a b c d : Nat, parse_bbox s = some (a, b, c, d))
    ∧ parse_bbox ("bbox -1 2 3 4") = none
    ∧ parse_bbox ("bbox 1 2 x 4") = none
    ∧ parse_bbox ("bbox 1 2 3") = none
    ∧ parse_bbox ("bbox 10 10 50 30") = some (10, 10, 50, 30) := by
  refine ⟨fun s => ?_, by decide, by decide, by decide, by decide⟩
  cases h : parse_bbox s with
  | none => exact Or.inl rfl
  | some q =>
    obtain ⟨a, b, c, d⟩ := q
    exact Or.inr ⟨a, b, c, d, rfl⟩

/-! ## `pyReplace` lemmas and claim C4 -/

theorem hasSub_nil_pat (cs : List Char) : hasSub [] cs = true := by
  cases cs <;> rfl

theorem replGo_id_of_not_sub (pat rep : List Char) :
    ∀ (cs : List Char) (fuel : Nat), hasSub pat cs = false → replGo pat rep fuel cs = cs := by
  intro cs
  induction cs with
  | nil => intro fuel h; cases fuel <;> rfl
  | cons c cs ih =>
    intro fuel h
    unfold hasSub at h
    rw [Bool.or_eq_false_iff] at h
    cases fuel with
    | zero => rfl
    | succ f =>
      unfold replGo
      rw [h.1]
      simp only [Bool.false_eq_true, if_false]
      rw [ih f h.2]

theorem pyReplace_id_of_not_sub (s pat rep : String)
    (h : hasSub pat.toList s.toList = false) : pyReplace s pat rep = s := by
  unfold pyReplace
  have hne : pat.toList.isEmpty = false := by
    cases hp : pat.toList with
    | nil => rw [hp, hasSub_nil_pat] at h; cases h
    | cons a l => rfl
  rw [hne]
  simp only [Bool.false_eq_true, if_false]
  rw [replGo_id_of_not_sub pat.toList rep.toList s.toList _ h]
  rfl

/-- C4 counterexample: a raster filename with a non-`.jp2` extension keeps
its extension in the artifact path, so the path the claim predicts (final
component with the extension replaced by `.png`) is not the one created. -/
theorem artifact_extension_cex :
    storeKeys (extract_and_save_numbers word_to_num_model [examplePageTif] ["p1.tif"]
        ("data/numbers") ("book1") []).store = ["data/numbers/12/12_book1_p1.tif"]
    ∧ ("data/numbers/12/12_book1_p1.tif" : String) ≠ "data/numbers/12/12_book1_p1.png" :=
  ⟨by decide, by decide⟩

/-- C4 (amended): the artifact path is
`<output_root>/<value>/<value>_<document>_<raster with every ".jp2" occurrence
replaced by ".png">`; a raster filename containing no ".jp2" is kept verbatim
(its extension is not replaced), and the spec's `.jp2` example holds. -/
theorem artifactPath_formula :
    (∀ (out book : String) (n : Int) (img : String),
        hasSub (".jp2").toList img.toList = false →
        artifactPath out n book img
          = out ++ "/" ++ toString n ++ "/" ++ toString n ++ "_" ++ book ++ "_" ++ img)
    ∧ artifactPath ("data/numbers") 12 ("book1") ("p1.jp2") = "data/numbers/12/12_book1_p1.png" := by
  constructor
  · intro out book n img h
    unfold artifactPath
    rw [pyReplace_id_of_not_sub img (".jp2") (".png") h]
  · decide

theorem artifactPath_formula_witness :
    artifactPath ("data/numbers") 7 ("bookX") ("p1.tif") = "data/numbers/7/7_bookX_p1.tif" :=
  artifactPath_formula.1 ("data/numbers") ("bookX") 7 ("p1.tif") (by decide)

/-! ## Claim C6 -/

theorem mainTotal_eq_sum_success (w2n : W2NOracle) (out : String) (store0 : Store) :
    ∀ books : List Book,
      mainTotal w2n out store0 books = (successCounts w2n out store0 books).sum := by
  intro books
  induction books with
  | nil => rfl
  | cons b bs ih =>
    cases hb : (process_book w2n out store0 b).1 with
    | ok r =>
      simp [mainTotal, successCounts, bookContribution, hb, List.filterMap_cons,
        List.map_cons, List.sum_cons] at ih ⊢
      rw [ih]
    | error e =>
      simp [mainTotal, successCounts, bookContribution, hb, List.filterMap_cons,
        List.map_cons, List.sum_cons] at ih ⊢
      rw [ih]

/-- C6: the reported grand total is the sum of the created counts of the
successfully processed documents, and each failure mode — missing layout
file, missing raster directory, or an exception while processing — makes the
document contribute exactly 0 without affecting the rest of the fold. -/
theorem fanout_isolation (w2n : W2NOracle) (out : String) (store0 : Store) (books : List Book) :
    mainTotal w2n out store0 books = (successCounts w2n out store0 books).sum
    ∧ (∀ (name : String) (jd : List String) (rd : String → Except String (List Page))
        (jc : String → List String),
        bookContribution w2n out store0
          { name := name, hocrFiles := [], jp2Dirs := jd, readHocr := rd, jp2Contents := jc } = 0)
    ∧ (∀ (name hf : String) (hs : List String) (rd : String → Except String (List Page))
        (jc : String → List String),
        bookContribution w2n out store0
          { name := name, hocrFiles := hf :: hs, jp2Dirs := [], readHocr := rd,
            jp2Contents := jc } = 0)
    ∧ (∀ (name hf : String) (hs : List String) (j : String) (js : List String) (e : String)
        (jc : String → List String),
        bookContribution w2n out store0
          { name := name, hocrFiles := hf :: hs, jp2Dirs := j :: js,
            readHocr := fun _ => Except.error e, jp2Contents := jc } = 0) :=
  ⟨mainTotal_eq_sum_success w2n out store0 books,
    fun _ _ _ _ => rfl, fun _ _ _ _ _ => rfl, fun _ _ _ _ _ _ _ => rfl⟩

/-! ## Claim C9 -/

theorem saveCands_log_eq (img out book : String) (cs : List Cand) :
    ∀ acc : SaveSt, (saveCands img out book acc cs).log = acc.log := by
  induction cs with
  | nil => intro acc; rfl
  | cons c cs ih =>
    intro acc
    unfold saveCands
    split
    · rw [ih]
    · rw [ih]

theorem saveImages_log_sub (jp2 : List String) (out book : String)
    (nbi : List (String × List Cand)) :
    ∀ (acc : SaveSt) (m : Msg), m ∈ (saveImages jp2 out book acc nbi).log →
      m ∈ acc.log ∨ ∃ s, m = Msg.jp2NotFound s := by
  induction nbi with
  | nil => intro acc m hm; exact Or.inl hm
  | cons e rest ih =>
    intro acc m hm
    unfold saveImages at hm
    split at hm
    · cases ih _ m hm with
      | inl h2 => rw [saveCands_log_eq] at h2; exact Or.inl h2
      | inr h2 => exact Or.inr h2
    · cases ih _ m hm with
      | inl h2 =>
        rcases List.mem_append.mp h2 with h3 | h3
        · exact Or.inl h3
        · exact Or.inr ⟨e.1, List.mem_singleton.mp h3⟩
      | inr h2 => exact Or.inr h2

theorem extract_log_msgs (w2n : W2NOracle) (doc : List Page) (jp2 : List String)
    (out book : String) (store0 : Store) :
    ∀ m ∈ (extract_and_save_numbers w2n doc jp2 out book store0).log,
      (!isMissingMsg m) = true := by
  intro m hm
  unfold extract_and_save_numbers at hm
  rcases List.mem_append.mp hm with h1 | h1
  · cases saveImages_log_sub jp2 out book _ _ m h1 with
    | inl h2 =>
      rw [List.mem_singleton.mp h2]
      rfl
    | inr h2 =>
      obtain ⟨s, rfl⟩ := h2
      rfl
  · rw [List.mem_singleton.mp h1]
    rfl

/-- C9: with several `*_hocr.html` or `*_jp2` glob matches, `process_book`
behaves exactly as if only the first match of each existed — the extra
matches are ignored — and its console output contains no missing-layout or
missing-raster-directory report. -/
theorem process_book_first_glob (w2n : W2NOracle) (out : String) (store0 : Store)
    (name hf : String) (hs : List String) (j : String) (js : List String)
    (rd : String → Except String (List Page)) (jc : String → List String) :
    process_book w2n out store0
        { name := name, hocrFiles := hf :: hs, jp2Dirs := j :: js, readHocr := rd,
          jp2Contents := jc }
      = process_book w2n out store0
        { name := name, hocrFiles := [hf], jp2Dirs := [j], readHocr := rd, jp2Contents := jc }
    ∧ ((process_book w2n out store0
        { name := name, hocrFiles := hf :: hs, jp2Dirs := j :: js, readHocr := rd,
          jp2Contents := jc }).2.all (fun m => !isMissingMsg m)) = true := by
  constructor
  · rfl
  · unfold process_book
    cases hr : rd hf with
    | error e => simp only [hr, List.all_nil]
    | ok doc =>
      simp only [hr]
      rw [List.all_eq_true]
      intro m hm
      exact extract_log_msgs w2n doc (jc j) out name store0 m hm

/-! ## Claim C8 -/

/-- C8 (code evidence): on the end-to-end example of spec §8 the extractor
persists exactly `data/numbers/12/12_book1_p1.png`, and that filename does
not match the `_h(\d+)\.png$` height pattern that
`build_book.get_image_for_number` requires of every artifact. -/
theorem artifact_filename_lacks_height :
    storeKeys (extract_and_save_numbers word_to_num_model [examplePageA, examplePageB]
        ["p1.jp2", "p2.jp2"] ("data/numbers") ("book1") []).store
      = ["data/numbers/12/12_book1_p1.png"]
    ∧ heightFromName (pathName ("data/numbers/12/12_book1_p1.png")) = none :=
  ⟨by decide, by decide⟩

/-! ## Claim C5: idempotence of the region extractor -/

theorem mem_keys_mono (st d : Store) (p : String) (h : p ∈ storeKeys st) :
    p ∈ storeKeys (st ++ d) := by
  unfold storeKeys at *
  rw [List.map_append]
  exact List.mem_append_left _ h

theorem saveCands_store_ext (img out book : String) (cs : List Cand) :
    ∀ acc : SaveSt, ∃ d : Store, (saveCands img out book acc cs).store = acc.store ++ d := by
  induction cs with
  | nil => intro acc; exact ⟨[], by simp [saveCands]⟩
  | cons c cs ih =>
    intro acc
    unfold saveCands
    split
    · exact ih _
    · obtain ⟨d, hd⟩ := ih
        { acc with
            store := acc.store ++ [(artifactPath out c.1 book img, img, c.2)],
            count := acc.count + 1 }
      exact ⟨(artifactPath out c.1 book img, img, c.2) :: d, by rw [hd]; simp⟩

theorem saveImages_store_ext (jp2 : List String) (out book : String)
    (nbi : List (String × List Cand)) :
    ∀ acc : SaveSt, ∃ d : Store, (saveImages jp2 out book acc nbi).store = acc.store ++ d := by
  induction nbi with
  | nil => intro acc; exact ⟨[], by simp [saveImages]⟩
  | cons e rest ih =>
    intro acc
    unfold saveImages
    split
    · obtain ⟨d1, hd1⟩ := saveCands_store_ext e.1 out book e.2 acc
      obtain ⟨d2, hd2⟩ := ih (saveCands e.1 out book acc e.2)
      exact ⟨d1 ++ d2, by rw [hd2, hd1]; simp⟩
    · exact ih _

theorem saveCands_path_mem (img out book : String) (cs : List Cand) :
    ∀ (acc : SaveSt) (c : Cand), c ∈ cs →
      artifactPath out c.1 book img ∈ storeKeys (saveCands img out book acc cs).store := by
  induction cs with
  | nil => intro acc c hc; cases hc
  | cons c' cs ih =>
    intro acc c hc
    unfold saveCands
    split
    next hmem =>
      rcases List.mem_cons.mp hc with rfl | hc2
      · obtain ⟨d, hd⟩ := saveCands_store_ext img out book cs { acc with skipped := acc.skipped + 1 }
        rw [hd]
        exact mem_keys_mono _ _ _ hmem
      · exact ih _ c hc2
    next hmem =>
      rcases List.mem_cons.mp hc with rfl | hc2
      · obtain ⟨d, hd⟩ := saveCands_store_ext img out book cs
          { acc with
              store := acc.store ++ [(artifactPath out c.1 book img, img, c.2)],
              count := acc.count + 1 }
        rw [hd]
        apply mem_keys_mono
        unfold storeKeys
        rw [List.map_append]
        exact List.mem_append_right _ (by simp)
      · exact ih _ c hc2

theorem saveImages_path_mem (jp2 : List String) (out book : String)
    (nbi : List (String × List Cand)) :
    ∀ (acc : SaveSt) (e : String × List Cand) (c : Cand), e ∈ nbi → e.1 ∈ jp2 → c ∈ e.2 →
      artifactPath out c.1 book e.1 ∈ storeKeys (saveImages jp2 out book acc nbi).store := by
  induction nbi with
  | nil => intro acc e c he; cases he
  | cons e' rest ih =>
    intro acc e c he hj hc
    unfold saveImages
    split
    next hpres =>
      rcases List.mem_cons.mp he with rfl | he2
      · obtain ⟨d, hd⟩ := saveImages_store_ext jp2 out book rest (saveCands e.1 out book acc e.2)
        rw [hd]
        exact mem_keys_mono _ _ _ (saveCands_path_mem e.1 out book e.2 acc c hc)
      · exact ih _ e c he2 hj hc
    next hpres =>
      rcases List.mem_cons.mp he with rfl | he2
      · exact absurd hj hpres
      · exact ih _ e c he2 hj hc

theorem saveCands_all_skip (img out book : String) (cs : List Cand) :
    ∀ acc : SaveSt, (∀ c ∈ cs, artifactPath out c.1 book img ∈ storeKeys acc.store) →
      (saveCands img out book acc cs).store = acc.store
      ∧ (saveCands img out book acc cs).count = acc.count
      ∧ (saveCands img out book acc cs).skipped = acc.skipped + cs.length := by
  induction cs with
  | nil => intro acc _; exact ⟨rfl, rfl, rfl⟩
  | cons c cs ih =>
    intro acc h
    unfold saveCands
    rw [if_pos (h c (List.mem_cons_self c cs))]
    obtain ⟨h1, h2, h3⟩ := ih { acc with skipped := acc.skipped + 1 }
      (fun c' hc' => h c' (List.mem_cons_of_mem c hc'))
    refine ⟨h1, h2, ?_⟩
    rw [h3]
    show acc.skipped + 1 + cs.length = acc.skipped + (cs.length + 1)
    omega

theorem saveImages_all_skip (jp2 : List String) (out book : String)
    (nbi : List (String × List Cand)) :
    ∀ acc : SaveSt,
      (∀ e ∈ nbi, e.1 ∈ jp2 → ∀ c ∈ e.2, artifactPath out c.1 book e.1 ∈ storeKeys acc.store) →
      (saveImages jp2 out book acc nbi).store = acc.store
      ∧ (saveImages jp2 out book acc nbi).count = acc.count
      ∧ (saveImages jp2 out book acc nbi).skipped = acc.skipped + countPresent jp2 nbi := by
  induction nbi with
  | nil => intro acc _; exact ⟨rfl, rfl, rfl⟩
  | cons e rest ih =>
    intro acc h
    unfold saveImages
    split
    next hpres =>
      obtain ⟨g1, g2, g3⟩ := saveCands_all_skip e.1 out book e.2 acc
        (h e (List.mem_cons_self e rest) hpres)
      obtain ⟨h1, h2, h3⟩ := ih (saveCands e.1 out book acc e.2)
        (fun e' he' hj' c hc' => by
          rw [g1]
          exact h e' (List.mem_cons_of_mem e he') hj' c hc')
      refine ⟨by rw [h1, g1], by rw [h2, g2], ?_⟩
      rw [h3, g3]
      show acc.skipped + e.2.length + countPresent jp2 rest
        = acc.skipped + ((if e.1 ∈ jp2 then e.2.length else 0) + countPresent jp2 rest)
      rw [if_pos hpres]
      omega
    next hpres =>
      obtain ⟨h1, h2, h3⟩ := ih { acc with log := acc.log ++ [Msg.jp2NotFound e.1] }
        (fun e' he' hj' c hc' => h e' (List.mem_cons_of_mem e he') hj' c hc')
      refine ⟨h1, h2, ?_⟩
      rw [h3]
      show acc.skipped + countPresent jp2 rest
        = acc.skipped + ((if e.1 ∈ jp2 then e.2.length else 0) + countPresent jp2 rest)
      rw [if_neg hpres]
      omega

theorem saveCands_count_skip (img out book : String) (cs : List Cand) :
    ∀ acc : SaveSt,
      (saveCands img out book acc cs).count + (saveCands img out book acc cs).skipped
        = acc.count + acc.skipped + cs.length := by
  induction cs with
  | nil => intro acc; rfl
  | cons c cs ih =>
    intro acc
    unfold saveCands
    split
    · rw [ih]
      show acc.count + (acc.skipped + 1) + cs.length = acc.count + acc.skipped + (cs.length + 1)
      omega
    · rw [ih]
      show acc.count + 1 + acc.skipped + cs.length = acc.count + acc.skipped + (cs.length + 1)
      omega

theorem saveImages_count_skip (jp2 : List String) (out book : String)
    (nbi : List (String × List Cand)) :
    ∀ acc : SaveSt,
      (saveImages jp2 out book acc nbi).count + (saveImages jp2 out book acc nbi).skipped
        = acc.count + acc.skipped + countPresent jp2 nbi := by
  induction nbi with
  | nil => intro acc; show acc.count + acc.skipped = acc.count + acc.skipped + 0; omega
  | cons e rest ih =>
    intro acc
    unfold saveImages
    split
    next hpres =>
      rw [ih, saveCands_count_skip]
      show acc.count + acc.skipped + e.2.length + countPresent jp2 rest
        = acc.count + acc.skipped + ((if e.1 ∈ jp2 then e.2.length else 0) + countPresent jp2 rest)
      rw [if_pos hpres]
      omega
    next hpres =>
      rw [ih]
      show acc.count + acc.skipped + countPresent jp2 rest
        = acc.count + acc.skipped + ((if e.1 ∈ jp2 then e.2.length else 0) + countPresent jp2 rest)
      rw [if_neg hpres]
      omega

/-- C5: the region extractor is idempotent — running
`extract_and_save_numbers` a second time over the same document and raster
set leaves the artifact store identical, creates zero new artifacts, and
skips every candidate it visits (their count being the first run's
created + skipped). -/
theorem region_extractor_idempotent (w2n : W2NOracle) (doc : List Page) (jp2 : List String)
    (out book : String) (store0 : Store) :
    (extract_and_save_numbers w2n doc jp2 out book
        (extract_and_save_numbers w2n doc jp2 out book store0).store).store
      = (extract_and_save_numbers w2n doc jp2 out book store0).store
    ∧ (extract_and_save_numbers w2n doc jp2 out book
        (extract_and_save_numbers w2n doc jp2 out book store0).store).count = 0
    ∧ (extract_and_save_numbers w2n doc jp2 out book
        (extract_and_save_numbers w2n doc jp2 out book store0).store).skipped
      = (extract_and_save_numbers w2n doc jp2 out book store0).count
        + (extract_and_save_numbers w2n doc jp2 out book store0).skipped := by
  have hall : ∀ e ∈ extract_numbers_from_hocr w2n doc, e.1 ∈ jp2 → ∀ c ∈ e.2,
      artifactPath out c.1 book e.1 ∈ storeKeys
        (extract_and_save_numbers w2n doc jp2 out book store0).store :=
    fun e he hj c hc =>
      saveImages_path_mem jp2 out book (extract_numbers_from_hocr w2n doc)
        { store := store0, count := 0, skipped := 0, log := [Msg.processing book] } e c he hj hc
  obtain ⟨h1, h2, h3⟩ := saveImages_all_skip jp2 out book (extract_numbers_from_hocr w2n doc)
    { store := (extract_and_save_numbers w2n doc jp2 out book store0).store, count := 0,
      skipped := 0, log := [Msg.processing book] } hall
  have h4 := saveImages_count_skip jp2 out book (extract_numbers_from_hocr w2n doc)
    { store := store0, count := 0, skipped := 0, log := [Msg.processing book] }
  refine ⟨h1, h2, ?_⟩
  show (saveImages jp2 out book
      { store := (extract_and_save_numbers w2n doc jp2 out book store0).store, count := 0,
        skipped := 0, log := [Msg.processing book] } (extract_numbers_from_hocr w2n doc)).skipped
    = (saveImages jp2 out book
        { store := store0, count := 0, skipped := 0, log := [Msg.processing book] }
        (extract_numbers_from_hocr w2n doc)).count
      + (saveImages jp2 out book
          { store := store0, count := 0, skipped := 0, log := [Msg.processing book] }
          (extract_numbers_from_hocr w2n doc)).skipped
  rw [h3]
  dsimp only at h4 ⊢
  omega

/-! ## Claim C2: per-document dedup and first-occurrence retention -/

theorem firstSome_eq_none_iff {α : Type} (a b : Option α) :
    firstSome a b = none ↔ a = none ∧ b = none := by
  cases a <;> simp [firstSome]

theorem valuesOf_dictAppend (nbi : List (String × List Cand)) (k : String) (c : Cand) :
    List.Perm (valuesOf (dictAppend nbi k c)) (c.1 :: valuesOf nbi) := by
  induction nbi with
  | nil => simp [dictAppend, valuesOf]
  | cons e rest ih =>
    unfold dictAppend
    split
    next heq =>
      show List.Perm ((e.2 ++ [c]).map (fun x => x.1) ++ valuesOf rest)
        (c.1 :: (e.2.map (fun x => x.1) ++ valuesOf rest))
      rw [List.map_append, List.append_assoc]
      exact List.perm_middle
    next hne =>
      show List.Perm (e.2.map (fun x => x.1) ++ valuesOf (dictAppend rest k c))
        (c.1 :: (e.2.map (fun x => x.1) ++ valuesOf rest))
      exact (List.Perm.append_left _ ih).trans List.perm_middle

theorem findVal_append (v : Int) (a b : List Cand) :
    findVal v (a ++ b) = firstSome (findVal v a) (findVal v b) := by
  induction a with
  | nil => rfl
  | cons c cs ih =>
    show (if c.1 = v then some c.2 else findVal v (cs ++ b))
      = firstSome (if c.1 = v then some c.2 else findVal v cs) (findVal v b)
    split
    · rfl
    · exact ih

theorem findVal_eq_none_iff (v : Int) (cs : List Cand) :
    findVal v cs = none ↔ v ∉ cs.map (fun c => c.1) := by
  induction cs with
  | nil => simp [findVal]
  | cons c cs ih =>
    unfold findVal
    split
    next h => simp [h]
    next h =>
      rw [ih]
      simp only [List.map_cons, List.mem_cons, not_or]
      constructor
      · intro hm; exact ⟨fun hv => h hv.symm, hm⟩
      · intro hm; exact hm.2

theorem lookupCand_eq_none_iff (v : Int) (nbi : List (String × List Cand)) :
    lookupCand v nbi = none ↔ v ∉ valuesOf nbi := by
  induction nbi with
  | nil => simp [lookupCand, valuesOf]
  | cons e rest ih =>
    show firstSome ((findVal v e.2).map (fun b => (e.1, b))) (lookupCand v rest) = none
      ↔ v ∉ e.2.map (fun c => c.1) ++ valuesOf rest
    rw [firstSome_eq_none_iff]
    cases hf : findVal v e.2 with
    | some b =>
      have hv : v ∈ e.2.map (fun c => c.1) := by
        by_contra hc
        rw [← findVal_eq_none_iff] at hc
        rw [hf] at hc
        cases hc
      simp [hv]
    | none =>
      have hv : v ∉ e.2.map (fun c => c.1) := (findVal_eq_none_iff v e.2).mp hf
      simp [ih, hv]

theorem lookupCand_dictAppend_self (v : Int) (b : Nat × Nat × Nat × Nat) (k : String) :
    ∀ nbi : List (String × List Cand), lookupCand v nbi = none →
      lookupCand v (dictAppend nbi k (v, b)) = some (k, b) := by
  intro nbi
  induction nbi with
  | nil => intro _; simp [dictAppend, lookupCand, findVal, firstSome]
  | cons e rest ih =>
    intro h
    rw [show lookupCand v (e :: rest)
        = firstSome ((findVal v e.2).map (fun x => (e.1, x))) (lookupCand v rest) from rfl,
      firstSome_eq_none_iff] at h
    have hfe : findVal v e.2 = none := by
      cases hf : findVal v e.2 with
      | none => rfl
      | some x => rw [hf] at h; cases h.1
    unfold dictAppend
    split
    next heq =>
      show firstSome ((findVal v (e.2 ++ [(v, b)])).map (fun x => (e.1, x))) (lookupCand v rest)
        = some (k, b)
      rw [findVal_append, hfe, firstSome_none]
      rw [show findVal v [(v, b)] = some b by simp [findVal]]
      rw [heq]
      rfl
    next hne =>
      show firstSome ((findVal v e.2).map (fun x => (e.1, x))) (lookupCand v (dictAppend rest k (v, b)))
        = some (k, b)
      rw [hfe]
      exact ih h.2

theorem lookupCand_dictAppend_ne (v n : Int) (b : Nat × Nat × Nat × Nat) (k : String)
    (hne : n ≠ v) :
    ∀ nbi : List (String × List Cand),
      lookupCand v (dictAppend nbi k (n, b)) = lookupCand v nbi := by
  intro nbi
  induction nbi with
  | nil => simp [dictAppend, lookupCand, findVal, hne, firstSome]
  | cons e rest ih =>
    unfold dictAppend
    split
    next heq =>
      show firstSome ((findVal v (e.2 ++ [(n, b)])).map (fun x => (e.1, x))) (lookupCand v rest)
        = lookupCand v (e :: rest)
      rw [findVal_append]
      rw [show findVal v [(n, b)] = none by simp [findVal, hne]]
      rw [firstSome_none_right]
      rfl
    next hne2 =>
      show firstSome ((findVal v e.2).map (fun x => (e.1, x))) (lookupCand v (dictAppend rest k (n, b)))
        = lookupCand v (e :: rest)
      rw [ih]
      rfl

/-- Well-formedness of the scanner state: candidate values are pairwise
distinct and coincide with the seen-set. -/
def WFState (s : ScanState) : Prop :=
  (valuesOf s.numbersByImage).Nodup
  ∧ ∀ v : Int, v ∈ valuesOf s.numbersByImage ↔ v ∈ s.seenNumbers

theorem processWord_eq_qual (w2n : W2NOracle) (img : String) (s : ScanState) (w : Word) :
    processWord w2n img s w =
      match wordQual w2n w with
      | none => s
      | some q =>
        if q.1 ∈ s.seenNumbers then s
        else { numbersByImage := dictAppend s.numbersByImage img (q.1, q.2),
               seenNumbers := s.seenNumbers ++ [q.1] } := by
  unfold processWord wordQual
  by_cases h1 : w.text = ""
  · simp [h1]
  · simp only [if_neg h1]
    cases h2 : extract_number_from_text w2n w.text with
    | none => simp
    | some n =>
      by_cases h3 : n ∈ s.seenNumbers
      · cases h4 : getTruthy w.title with
        | none => simp [h3]
        | some wt =>
          cases h5 : parse_confidence wt with
          | none => simp [h3, h5]
          | some q =>
            by_cases h6 : q ≤ 90
            · simp [h3, h5, h6]
            · cases h7 : parse_bbox wt with
              | none => simp [h3, h5, h6, h7]
              | some b => simp [h3, h5, h6, h7]
      · cases h4 : getTruthy w.title with
        | none => simp [h3]
        | some wt =>
          cases h5 : parse_confidence wt with
          | none => simp [h3, h5]
          | some q =>
            by_cases h6 : q ≤ 90
            · simp [h3, h5, h6]
            · cases h7 : parse_bbox wt with
              | none => simp [h3, h5, h6, h7]
              | some b => simp [h3, h5, h6, h7]

theorem scanWords_spec (w2n : W2NOracle) (img : String) (ws : List Word) :
    ∀ s : ScanState, WFState s →
      WFState (scanWords w2n img s ws)
      ∧ ∀ v : Int, lookupCand v (scanWords w2n img s ws).numbersByImage
          = firstSome (lookupCand v s.numbersByImage)
              ((firstQualWords w2n v ws).map (fun b => (img, b))) := by
  induction ws with
  | nil =>
    intro s hs
    exact ⟨hs, fun v => (firstSome_none_right _).symm⟩
  | cons w ws ih =>
    intro s hs
    show WFState (scanWords w2n img (processWord w2n img s w) ws)
      ∧ ∀ v : Int, lookupCand v (scanWords w2n img (processWord w2n img s w) ws).numbersByImage
          = firstSome (lookupCand v s.numbersByImage)
              ((firstQualWords w2n v (w :: ws)).map (fun b => (img, b)))
    rw [processWord_eq_qual]
    cases hq : wordQual w2n w with
    | none =>
      obtain ⟨h1, h2⟩ := ih s hs
      refine ⟨h1, fun v => ?_⟩
      rw [h2 v]
      rw [show firstQualWords w2n v (w :: ws)
          = match wordQual w2n w with
            | some q => if q.1 = v then some q.2 else firstQualWords w2n v ws
            | none => firstQualWords w2n v ws from rfl]
      rw [hq]
    | some q =>
      obtain ⟨n, b⟩ := q
      dsimp only
      by_cases hseen : n ∈ s.seenNumbers
      · rw [if_pos hseen]
        obtain ⟨h1, h2⟩ := ih s hs
        refine ⟨h1, fun v => ?_⟩
        rw [h2 v]
        rw [show firstQualWords w2n v (w :: ws)
            = match wordQual w2n w with
              | some q => if q.1 = v then some q.2 else firstQualWords w2n v ws
              | none => firstQualWords w2n v ws from rfl]
        rw [hq]
        by_cases hv : n = v
        · subst hv
          have hvin : n ∈ valuesOf s.numbersByImage := (hs.2 n).mpr hseen
          cases hl : lookupCand n s.numbersByImage with
          | none => exact absurd hvin ((lookupCand_eq_none_iff n _).mp hl)
          | some x => rfl
        · show firstSome (lookupCand v s.numbersByImage) ((firstQualWords w2n v ws).map _)
            = firstSome (lookupCand v s.numbersByImage)
                ((if n = v then some b else firstQualWords w2n v ws).map _)
          rw [if_neg hv]
      · rw [if_neg hseen]
        have hlnone : lookupCand n s.numbersByImage = none :=
          (lookupCand_eq_none_iff n _).mpr (fun hin => hseen ((hs.2 n).mp hin))
        have hperm := valuesOf_dictAppend s.numbersByImage img (n, b)
        have hwf' : WFState
            { numbersByImage := dictAppend s.numbersByImage img (n, b),
              seenNumbers := s.seenNumbers ++ [n] } := by
          constructor
          · exact (hperm.nodup_iff).mpr
              (List.nodup_cons.mpr ⟨fun hin => hseen ((hs.2 n).mp hin), hs.1⟩)
          · intro v
            show v ∈ valuesOf (dictAppend s.numbersByImage img (n, b)) ↔ _
            rw [hperm.mem_iff]
            simp [List.mem_cons, List.mem_append, hs.2 v, or_comm]
        obtain ⟨h1, h2⟩ := ih _ hwf'
        refine ⟨h1, fun v => ?_⟩
        rw [h2 v]
        rw [show firstQualWords w2n v (w :: ws)
            = match wordQual w2n w with
              | some q => if q.1 = v then some q.2 else firstQualWords w2n v ws
              | none => firstQualWords w2n v ws from rfl]
        rw [hq]
        by_cases hv : n = v
        · subst hv
          show firstSome (lookupCand n (dictAppend s.numbersByImage img (n, b)))
              ((firstQualWords w2n n ws).map _)
            = firstSome (lookupCand n s.numbersByImage)
                ((if n = n then some b else firstQualWords w2n n ws).map _)
          rw [lookupCand_dictAppend_self n b img s.numbersByImage hlnone, hlnone, if_pos rfl]
          rfl
        · show firstSome (lookupCand v (dictAppend s.numbersByImage img (n, b)))
              ((firstQualWords w2n v ws).map _)
            = firstSome (lookupCand v s.numbersByImage)
                ((if n = v then some b else firstQualWords w2n v ws).map _)
          rw [lookupCand_dictAppend_ne v n b img hv s.numbersByImage, if_neg hv]

theorem scanPages_spec (w2n : W2NOracle) (ps : List Page) :
    ∀ s : ScanState, WFState s →
      WFState (scanPages w2n s ps)
      ∧ ∀ v : Int, lookupCand v (scanPages w2n s ps).numbersByImage
          = firstSome (lookupCand v s.numbersByImage) (firstQualPages w2n v ps) := by
  induction ps with
  | nil =>
    intro s hs
    exact ⟨hs, fun v => (firstSome_none_right _).symm⟩
  | cons p ps ih =>
    intro s hs
    show WFState (scanPages w2n (processPage w2n s p) ps)
      ∧ ∀ v : Int, lookupCand v (scanPages w2n (processPage w2n s p) ps).numbersByImage
          = firstSome (lookupCand v s.numbersByImage) (firstQualPages w2n v (p :: ps))
    unfold processPage
    cases hi : getImage p with
    | none =>
      obtain ⟨h1, h2⟩ := ih s hs
      refine ⟨h1, fun v => ?_⟩
      rw [h2 v]
      rw [show firstQualPages w2n v (p :: ps)
          = match getImage p with
            | none => firstQualPages w2n v ps
            | some img => firstSome ((firstQualWords w2n v p.words).map (fun b => (img, b)))
                (firstQualPages w2n v ps) from rfl]
      rw [hi]
    | some img =>
      obtain ⟨hw1, hw2⟩ := scanWords_spec w2n img p.words s hs
      obtain ⟨h1, h2⟩ := ih _ hw1
      refine ⟨h1, fun v => ?_⟩
      rw [h2 v, hw2 v]
      rw [show firstQualPages w2n v (p :: ps)
          = match getImage p with
            | none => firstQualPages w2n v ps
            | some img => firstSome ((firstQualWords w2n v p.words).map (fun b => (img, b)))
                (firstQualPages w2n v ps) from rfl]
      rw [hi]
      exact firstSome_assoc _ _ _

/-- C2: within one document the scanner yields at most one candidate per
integer value, and the retained candidate for each value is exactly the
first qualifying occurrence in document traversal order (`firstQualPages`),
independent of the confidence of later duplicates, the seen-set being
scoped to the whole document. -/
theorem scanner_dedup_first_occurrence (w2n : W2NOracle) (doc : List Page) :
    (valuesOf (extract_numbers_from_hocr w2n doc)).Nodup
    ∧ ∀ v : Int, lookupCand v (extract_numbers_from_hocr w2n doc) = firstQualPages w2n v doc := by
  have hwf0 : WFState { numbersByImage := [], seenNumbers := [] } :=
    ⟨List.nodup_nil, by simp [valuesOf]⟩
  obtain ⟨h1, h2⟩ := scanPages_spec w2n doc { numbersByImage := [], seenNumbers := [] } hwf0
  exact ⟨h1.1, fun v => h2 v⟩

/-! ## Claim C3: the confidence/geometry gates -/

theorem wordQual_some_inv (w2n : W2NOracle) (w : Word) (n : Int) (b : Nat × Nat × Nat × Nat)
    (h : wordQual w2n w = some (n, b)) :
    w.text ≠ "" ∧ extract_number_from_text w2n w.text = some n
    ∧ ∃ t, getTruthy w.title = some t
        ∧ ∃ q : ℚ, parse_confidence t = some q ∧ 90 < q ∧ parse_bbox t = some b := by
  unfold wordQual at h
  split at h
  next h1 => cases h
  next h1 =>
    split at h
    next => cases h
    next m hm =>
      split at h
      next => cases h
      next t ht =>
        split at h
        next => cases h
        next q hq =>
          split at h
          next => cases h
          next h6 =>
            split at h
            next => cases h
            next bb hb =>
              cases h
              exact ⟨h1, hm, t, ht, q, hq, lt_of_not_le h6, hb⟩

theorem firstQualWords_some_inv (w2n : W2NOracle) (v : Int) (ws : List Word)
    (b : Nat × Nat × Nat × Nat) (h : firstQualWords w2n v ws = some b) :
    ∃ w ∈ ws, wordQual w2n w = some (v, b) := by
  induction ws with
  | nil => cases h
  | cons w ws ih =>
    unfold firstQualWords at h
    split at h
    next q hq =>
      obtain ⟨qn, qb⟩ := q
      split at h
      next hv =>
        cases h
        exact ⟨w, List.mem_cons_self w ws, by rw [hq]; rw [show qn = v from hv]⟩
      next hv =>
        obtain ⟨w', hw', hq'⟩ := ih h
        exact ⟨w', List.mem_cons_of_mem w hw', hq'⟩
    next hq =>
      obtain ⟨w', hw', hq'⟩ := ih h
      exact ⟨w', List.mem_cons_of_mem w hw', hq'⟩

theorem firstQualPages_some_inv (w2n : W2NOracle) (v : Int) (ps : List Page) (img : String)
    (b : Nat × Nat × Nat × Nat) (h : firstQualPages w2n v ps = some (img, b)) :
    ∃ p ∈ ps, getImage p = some img ∧ ∃ w ∈ p.words, wordQual w2n w = some (v, b) := by
  induction ps with
  | nil => cases h
  | cons p ps ih =>
    unfold firstQualPages at h
    split at h
    next hi =>
      obtain ⟨p', hp', rest⟩ := ih h
      exact ⟨p', List.mem_cons_of_mem p hp', rest⟩
    next img' hi =>
      cases hfw : firstQualWords w2n v p.words with
      | none =>
        rw [hfw] at h
        rw [show (Option.map (fun b => (img', b)) (none : Option (Nat × Nat × Nat × Nat)))
            = none from rfl] at h
        rw [firstSome_none] at h
        obtain ⟨p', hp', rest⟩ := ih h
        exact ⟨p', List.mem_cons_of_mem p hp', rest⟩
      | some b' =>
        rw [hfw] at h
        rw [show (Option.map (fun b => (img', b)) (some b')) = some (img', b') from rfl] at h
        rw [firstSome_some] at h
        obtain ⟨heq1, heq2⟩ := Prod.mk.injEq .. ▸ Option.some.inj h
        exact ⟨p, List.mem_cons_self p ps, heq1 ▸ hi,
          firstQualWords_some_inv w2n v p.words b (heq2 ▸ hfw)⟩

theorem scanWords_append (w2n : W2NOracle) (img : String) (a b : List Word) :
    ∀ s : ScanState, scanWords w2n img s (a ++ b) = scanWords w2n img (scanWords w2n img s a) b := by
  induction a with
  | nil => intro s; rfl
  | cons w ws ih => intro s; exact ih (processWord w2n img s w)

theorem scanPages_append (w2n : W2NOracle) (a b : List Page) :
    ∀ s : ScanState, scanPages w2n s (a ++ b) = scanPages w2n (scanPages w2n s a) b := by
  induction a with
  | nil => intro s; rfl
  | cons p ps ih => intro s; exact ih (processPage w2n s p)

theorem processWord_noop (w2n : W2NOracle) (img : String) (s : ScanState) (w : Word)
    (h : ∀ q : ℚ, (getTruthy w.title).bind parse_confidence = some q → q ≤ 90) :
    processWord w2n img s w = s := by
  have heq := processWord_eq_qual w2n img s w
  cases hq : wordQual w2n w with
  | none => rw [hq] at heq; exact heq
  | some q =>
    obtain ⟨n, b⟩ := q
    obtain ⟨_, _, t, ht, qc, hqc, hgt, _⟩ := wordQual_some_inv w2n w n b hq
    have hbind : (getTruthy w.title).bind parse_confidence = some qc := by
      rw [ht]
      exact hqc
    exact absurd (h qc hbind) (not_le.mpr hgt)

/-- C3: a candidate arises only from a word whose confidence is resolvable
and strictly greater than 90, with resolvable geometry on a page with a
resolvable raster filename; a word with unresolvable or low confidence is a
no-op, so deleting it from the document leaves the scanner output unchanged
(unresolvable confidence is never defaulted to acceptable). -/
theorem candidate_confidence_gate (w2n : W2NOracle) :
    (∀ (pre post : List Page) (pt : Option String) (ws1 ws2 : List Word) (w : Word),
        (∀ q : ℚ, (getTruthy w.title).bind parse_confidence = some q → q ≤ 90) →
        extract_numbers_from_hocr w2n (pre ++ { title := pt, words := ws1 ++ w :: ws2 } :: post)
          = extract_numbers_from_hocr w2n (pre ++ { title := pt, words := ws1 ++ ws2 } :: post))
    ∧ (∀ (doc : List Page) (v : Int) (img : String) (b : Nat × Nat × Nat × Nat),
        lookupCand v (extract_numbers_from_hocr w2n doc) = some (img, b) →
        ∃ p ∈ doc, getImage p = some img
          ∧ ∃ w ∈ p.words, w.text ≠ "" ∧ extract_number_from_text w2n w.text = some v
            ∧ ∃ t, getTruthy w.title = some t
              ∧ ∃ q : ℚ, parse_confidence t = some q ∧ 90 < q ∧ parse_bbox t = some b) := by
  constructor
  · intro pre post pt ws1 ws2 w hw
    have hpage : ∀ s : ScanState,
        processPage w2n s { title := pt, words := ws1 ++ w :: ws2 }
          = processPage w2n s { title := pt, words := ws1 ++ ws2 } := by
      intro s
      unfold processPage
      have hsame : getImage { title := pt, words := ws1 ++ w :: ws2 }
          = getImage { title := pt, words := ws1 ++ ws2 } := rfl
      rw [hsame]
      cases hgi : getImage { title := pt, words := ws1 ++ ws2 } with
      | none => simp only [hgi]
      | some img =>
        simp only [hgi]
        show scanWords w2n img s (ws1 ++ w :: ws2) = scanWords w2n img s (ws1 ++ ws2)
        rw [scanWords_append, scanWords_append]
        show scanWords w2n img (processWord w2n img (scanWords w2n img s ws1) w) ws2 = _
        rw [processWord_noop w2n img _ w hw]
    unfold extract_numbers_from_hocr
    rw [scanPages_append, scanPages_append]
    show (scanPages w2n (processPage w2n _ { title := pt, words := ws1 ++ w :: ws2 }) post).numbersByImage
      = (scanPages w2n (processPage w2n _ { title := pt, words := ws1 ++ ws2 }) post).numbersByImage
    rw [hpage]
  · intro doc v img b h
    have h2 := (scanPages_spec w2n doc { numbersByImage := [], seenNumbers := [] }
      ⟨List.nodup_nil, by simp [valuesOf]⟩).2 v
    rw [show extract_numbers_from_hocr w2n doc
        = (scanPages w2n { numbersByImage := [], seenNumbers := [] } doc).numbersByImage
        from rfl, h2] at h
    obtain ⟨p, hp, hpi, w, hw, hq⟩ := firstQualPages_some_inv w2n v doc img b h
    obtain ⟨ha, hb2, t, ht, q, hqc, hgt, hbb⟩ := wordQual_some_inv w2n w v b hq
    exact ⟨p, hp, hpi, w, hw, ha, hb2, t, ht, q, hqc, hgt, hbb⟩

theorem candidate_confidence_gate_witness :
    extract_numbers_from_hocr (fun _ => none)
        [{ title := some ("image \"p1.jp2\""),
           words := [{ text := "5", title := some ("bbox 1 2 3 4") }] }]
      = extract_numbers_from_hocr (fun _ => none)
        [{ title := some ("image \"p1.jp2\""), words := [] }]
    ∧ ∃ p ∈ [examplePageA], getImage p = some ("p1.jp2")
        ∧ ∃ w ∈ p.words, w.text ≠ "" ∧ extract_number_from_text word_to_num_model w.text = some 12
          ∧ ∃ t, getTruthy w.title = some t
            ∧ ∃ q : ℚ, parse_confidence t = some q ∧ 90 < q
              ∧ parse_bbox t = some (10, 10, 50, 30) := by
  constructor
  · exact (candidate_confidence_gate (fun _ => none)).1 [] [] (some ("image \"p1.jp2\"")) [] []
      { text := "5", title := some ("bbox 1 2 3 4") } (fun q hq => Option.noConfusion hq)
  · exact (candidate_confidence_gate word_to_num_model).2 [examplePageA] 12 ("p1.jp2")
      (10, 10, 50, 30) (by decide)

end TheNumbers
